import Mathlib

/-!
Verification of the video-download service of `void-plugin-videodownload`.

The definitions below are a shallow embedding of
`src/server/services/video-downloader.js` (class `VideoDownloader`) and of the
HTTP route in the plugin entry point.  Pure string manipulation (the regular
expressions used to parse URLs and file names) is embedded as explicit
scanners over `List Char` with JavaScript's leftmost-match semantics;
JavaScript's stable `Array.prototype.sort` is embedded as a stable insertion
sort by an integer key; `BigInt` arithmetic is embedded as `Int`; the
floating-point arithmetic of the frame sampler is embedded over `ℚ`;
filesystem and subprocess effects are embedded as explicit event traces over
an environment record of external outcomes.
-/

deriving instance DecidableEq for Except

namespace VideoDL

/-! ## Characters, digits and substring search -/

/-- JavaScript's `\d` character class. -/
def isDigitC (c : Char) : Bool := '0' ≤ c ∧ c ≤ '9'

/-- Value of a decimal digit string, as produced by `parseInt` / `BigInt`
on an all-digit string. -/
def digitsToNat (ds : List Char) : Nat :=
  ds.foldl (fun n c => n * 10 + (c.toNat - 48)) 0

/-- `BigInt(s)` for an all-digit string `s`. -/
def strToNat (s : String) : Nat := digitsToNat s.toList

/-- JavaScript `String.prototype.includes` over character lists. -/
def containsL (pat : List Char) : List Char → Bool
  | [] => pat.isPrefixOf []
  | c :: cs => pat.isPrefixOf (c :: cs) || containsL pat cs

/-- JavaScript `String.prototype.includes`. -/
def containsSub (s pat : String) : Bool := containsL pat.toList s.toList

/-- POSIX `path.join` for a directory and a plain file name. -/
def pathJoin (dir f : String) : String := dir ++ "/" ++ f

/-! ## Regular-expression scanners

Each regex used by the source is embedded as a leftmost-match scanner: at
each start position the (backtracking-free normal form of the) pattern is
tried, and on failure the start position advances by one character. -/

/-- The literal `status/` of the regex `/status\/(\d+)/`. -/
def statusSlashL : List Char := ['s', 't', 'a', 't', 'u', 's', '/']

/-- One-position attempt for `/status\/(\d+)/`: the literal `status/`
followed by at least one digit; the capture is the maximal digit run. -/
def tryStatusIdAt (l : List Char) : Option (List Char) :=
  if statusSlashL.isPrefixOf l then
    let rest := l.drop 7
    let ds := rest.takeWhile isDigitC
    if ds.isEmpty then none else some ds
  else none

/-- Leftmost match of `/status\/(\d+)/` (capture group 1). -/
def scanStatusId : List Char → Option (List Char)
  | [] => none
  | c :: cs =>
    match tryStatusIdAt (c :: cs) with
    | some ds => some ds
    | none => scanStatusId cs

/-- `extractTweetId` (video-downloader.js line 33): first match of
`/status\/(\d+)/`, `null` when there is none. -/
def extractTweetId (url : String) : Option String :=
  (scanStatusId url.toList).map (fun ds => String.mk ds)

/-- The literal `x.com/` of the regex `/x\.com\/([^/]+)\/status/`. -/
def xcomSlashL : List Char := ['x', '.', 'c', 'o', 'm', '/']

/-- The literal `/status` of the regex `/x\.com\/([^/]+)\/status/`. -/
def slashStatusL : List Char := ['/', 's', 't', 'a', 't', 'u', 's']

/-- One-position attempt for `/x\.com\/([^/]+)\/status/`: the literal
`x.com/`, then a maximal nonempty run of non-`/` characters (the capture),
then the literal `/status`.  Backtracking cannot shorten the run, since a
shorter capture would have to be followed by a non-`/` character. -/
def tryUsernameAt (l : List Char) : Option (List Char) :=
  if xcomSlashL.isPrefixOf l then
    let rest := l.drop 6
    let run := rest.takeWhile (fun c => c ≠ '/')
    if run.isEmpty then none
    else if slashStatusL.isPrefixOf (rest.drop run.length) then some run
    else none
  else none

/-- Leftmost match of `/x\.com\/([^/]+)\/status/` (capture group 1). -/
def scanUsername : List Char → Option (List Char)
  | [] => none
  | c :: cs =>
    match tryUsernameAt (c :: cs) with
    | some run => some run
    | none => scanUsername cs

/-- `extractUsername` (video-downloader.js line 41), without the
`'unknown'` default (the caller applies it). -/
def extractUsername (url : String) : Option String :=
  (scanUsername url.toList).map (fun run => String.mk run)

/-- `extractUsername` including its `'unknown'` fallback. -/
def extractUsernameD (url : String) : String :=
  (extractUsername url).getD "unknown"

/-- The literal `ext_tw_video/` of `/(?:ext_tw_video|amplify_video)\/(\d+)/`. -/
def extTwVideoL : List Char :=
  ['e', 'x', 't', '_', 't', 'w', '_', 'v', 'i', 'd', 'e', 'o', '/']

/-- The literal `amplify_video/` of the same regex. -/
def amplifyVideoL : List Char :=
  ['a', 'm', 'p', 'l', 'i', 'f', 'y', '_', 'v', 'i', 'd', 'e', 'o', '/']

/-- Maximal nonempty digit run at the head of a list (`(\d+)` capture). -/
def digitsAt (l : List Char) : Option (List Char) :=
  let ds := l.takeWhile isDigitC
  if ds.isEmpty then none else some ds

/-- One-position attempt for `/(?:ext_tw_video|amplify_video)\/(\d+)/`. -/
def tryVideoIdAt (l : List Char) : Option (List Char) :=
  if extTwVideoL.isPrefixOf l then digitsAt (l.drop 13)
  else if amplifyVideoL.isPrefixOf l then digitsAt (l.drop 14)
  else none

/-- Leftmost match of `/(?:ext_tw_video|amplify_video)\/(\d+)/`. -/
def scanVideoId : List Char → Option (List Char)
  | [] => none
  | c :: cs =>
    match tryVideoIdAt (c :: cs) with
    | some ds => some ds
    | none => scanVideoId cs

/-- `getVideoId` (video-downloader.js line 264). -/
def getVideoId (url : String) : Option String :=
  (scanVideoId url.toList).map (fun ds => String.mk ds)

/-- One-position attempt for `/\/(\d+)x(\d+)\//` (resolution path segment):
`/`, maximal digit run, `x`, maximal digit run, `/`.  Greedy `\d+` cannot be
shortened by backtracking since a shorter run ends at a digit. -/
def tryResSlashAt : List Char → Option (Nat × Nat)
  | '/' :: rest =>
    match digitsAt rest with
    | none => none
    | some w =>
      match rest.drop w.length with
      | 'x' :: rest2 =>
        match digitsAt rest2 with
        | none => none
        | some h =>
          match rest2.drop h.length with
          | '/' :: _ => some (digitsToNat w, digitsToNat h)
          | _ => none
      | _ => none
  | _ => none

/-- Leftmost match of `/\/(\d+)x(\d+)\//`. -/
def scanResSlash : List Char → Option (Nat × Nat)
  | [] => none
  | c :: cs =>
    match tryResSlashAt (c :: cs) with
    | some wh => some wh
    | none => scanResSlash cs

/-- One-position attempt for `/(\d+)x(\d+)/` (bare resolution token). -/
def tryResAnyAt (l : List Char) : Option (Nat × Nat) :=
  match digitsAt l with
  | none => none
  | some w =>
    match l.drop w.length with
    | 'x' :: rest =>
      match digitsAt rest with
      | none => none
      | some h => some (digitsToNat w, digitsToNat h)
    | _ => none

/-- Leftmost match of `/(\d+)x(\d+)/`. -/
def scanResAny : List Char → Option (Nat × Nat)
  | [] => none
  | c :: cs =>
    match tryResAnyAt (c :: cs) with
    | some wh => some wh
    | none => scanResAny cs

/-- Leftmost match of `/frame_(\d+)/` reused for all-frames sorting:
the literal `frame_` followed by at least one digit. -/
def frameUnderscoreL : List Char := ['f', 'r', 'a', 'm', 'e', '_']

/-- One-position attempt for `/frame_(\d+)/`. -/
def tryFrameNumAt (l : List Char) : Option (List Char) :=
  if frameUnderscoreL.isPrefixOf l then digitsAt (l.drop 6) else none

/-- Leftmost match of `/frame_(\d+)/` (capture group 1). -/
def scanFrameNum : List Char → Option (List Char)
  | [] => none
  | c :: cs =>
    match tryFrameNumAt (c :: cs) with
    | some ds => some ds
    | none => scanFrameNum cs

/-- `parseInt(f.match(/frame_(\d+)/)[1])` for a file name `f`; `none` models
the JavaScript crash when the regex does not match at all. -/
def frameNum (f : String) : Option Nat :=
  (scanFrameNum f.toList).map digitsToNat

/-! ## Stable sort by an integer key

JavaScript's `Array.prototype.sort` is stable (ES2019); every comparator in
the source is a total preorder induced by an integer key, so the sort is
embedded as a stable insertion sort by that key. -/

/-- Insert `x` into `l` before the first element whose key is `≥ key x`.
This is the stable insertion step: an element arriving earlier in the input
is placed before later elements of equal key. -/
def insertK {α : Type} (key : α → Int) (x : α) : List α → List α
  | [] => [x]
  | y :: ys => if key x ≤ key y then x :: y :: ys else y :: insertK key x ys

/-- Stable sort by the integer key `key`: the embedding of
`Array.prototype.sort` with comparator `(a, b) => sign (key a - key b)`. -/
def sortK {α : Type} (key : α → Int) : List α → List α
  | [] => []
  | x :: xs => insertK key x (sortK key xs)

/-- First element of a list attaining the minimal key (ties to the earlier
element); specification device for the head of a stable sort. -/
def firstMin {α : Type} (key : α → Int) : List α → Option α
  | [] => none
  | x :: xs =>
    match firstMin key xs with
    | none => some x
    | some y => if key x ≤ key y then some x else some y

/-! ## Observed responses, identity groups, stream selection
(video-downloader.js lines 216-343) -/

/-- One entry of `videoUrls` (line 226): an observed network response. -/
structure VResp where
  url : String
  contentType : String
  status : Nat
  timestamp : Nat
deriving DecidableEq

/-- The response-classifier test of the `page.on('response')` listener
(lines 220-224). -/
def isVideoResp (v : VResp) : Bool :=
  containsSub v.contentType "video" ||
  containsSub v.url ".mp4" ||
  containsSub v.url "video.twimg.com" ||
  containsSub v.url "/ext_tw_video/" ||
  containsSub v.url ".m3u8"

/-- `videoGroups.get(id).videos.push(v)` with `Map` insertion semantics:
append to the existing group keyed by `id`, else create a new group at the
end (first-seen order). -/
def addResp (id : String) (v : VResp) : List (String × List VResp) →
    List (String × List VResp)
  | [] => [(id, [v])]
  | (k, vs) :: rest =>
    if k = id then (k, vs ++ [v]) :: rest else (k, vs) :: addResp id v rest

/-- The grouping loop of lines 274-283: cluster responses with an
extractable media id into Media Identity Groups, preserving first-seen
group order and per-group observation order. -/
def buildGroups (rs : List VResp) : List (String × List VResp) :=
  rs.foldl
    (fun gs v =>
      match getVideoId v.url with
      | some id => addResp id v gs
      | none => gs)
    []

/-- `aAbs` / `bAbs` of the comparator at lines 289-296: the absolute
difference `|tweetId - BigInt(groupId)|`, in arbitrary precision. -/
def absDiffKey (tweetIdNum : Int) (g : String × List VResp) : Int :=
  let d := tweetIdNum - (strToNat g.1 : Int)
  if d < 0 then -d else d

/-- The group selection of lines 289-299: stable-sort the groups by
absolute id difference (the comparator returns 0 on equal absolute
differences) and take the first. -/
def selectGroup (tweetIdNum : Int) (gs : List (String × List VResp)) :
    Option (String × List VResp) :=
  (sortK (absDiffKey tweetIdNum) gs).head?

/-- The HLS-candidate filter of lines 306-308: HTTP 200, `.m3u8` URL, and
either a `/WxH/` resolution path segment or the `pl/avc1` marker. -/
def isHlsCand (v : VResp) : Bool :=
  v.status = 200 && containsSub v.url ".m3u8" &&
    ((scanResSlash v.url.toList).isSome || containsSub v.url "pl/avc1")

/-- Pixel count used to rank HLS playlists (lines 310-314); 0 when the URL
carries no `/WxH/` token. -/
def hlsPixels (v : VResp) : Nat :=
  match scanResSlash v.url.toList with
  | some (w, h) => w * h
  | none => 0

/-- The MP4-candidate filter of line 326: HTTP 200, a `.mp4` URL that is
not a `.m4s` fragment. -/
def isMp4Cand (v : VResp) : Bool :=
  v.status = 200 && containsSub v.url ".mp4" && !containsSub v.url ".m4s"

/-- Pixel count used to rank MP4 files (lines 328-332); the resolution
token needs no surrounding slashes here. -/
def mp4Pixels (v : VResp) : Nat :=
  match scanResAny v.url.toList with
  | some (w, h) => w * h
  | none => 0

/-- The stream selection of lines 306-343: prefer the highest-ranked HLS
playlist (strategy flag `true`), else the highest-ranked progressive MP4
(strategy flag `false`), else nothing (`throw 'Could not find downloadable
video URL'`).  Descending rank by pixels is the stable sort by key
`-pixels`. -/
def pickDownload (pool : List VResp) : Option (String × Bool) :=
  match sortK (fun v => -(hlsPixels v : Int)) (pool.filter isHlsCand) with
  | h :: _ => some (h.url, true)
  | [] =>
    match sortK (fun v => -(mp4Pixels v : Int)) (pool.filter isMp4Cand) with
    | m :: _ => some (m.url, false)
    | [] => none

/-! ## Progressive-file retrieval (`downloadFileHttp`, lines 155-200) -/

/-- One HTTP response as seen by `protocol.get`: status code, optional
`Location` header, and whether piping the body to the file completes
(`finish`) or errors. -/
structure HResp where
  status : Nat
  location : Option String
  bodyOk : Bool

/-- Outcome of `downloadFileHttp`: resolution, or one of its rejection
paths (`Too many redirects`, `Download failed: <status>`, a stream error
after `unlinkSync`). -/
inductive DlOut
  | ok
  | tooManyRedirects
  | failed (status : Nat)
  | streamError
deriving DecidableEq

/-- The redirect test of line 167: 3xx status with a `Location` header. -/
def isRedirect (r : HResp) : Bool :=
  300 ≤ r.status && r.status < 400 && r.location.isSome

/-- `${urlObj.protocol}//${urlObj.host}` of lines 171-172: scheme, `://`,
and the host up to the next `/`. -/
def urlOrigin (u : String) : String :=
  let cs := u.toList
  let scheme := cs.takeWhile (fun c => c ≠ ':')
  let host := ((cs.drop (scheme.length + 3)).takeWhile (fun c => c ≠ '/'))
  String.mk scheme ++ "://" ++ String.mk host

/-- Resolution of a relative redirect (lines 168-173):
`redirectUrl.startsWith('/')` prepends the origin of the current URL. -/
def redirectTarget (currentUrl loc : String) : String :=
  if ['/'].isPrefixOf loc.toList then urlOrigin currentUrl ++ loc else loc

/-- `makeRequest` (lines 159-196).  The fuel counts the remaining allowed
requests: the source rejects when `redirectCount > 10`, i.e. at the 12th
request, so the initial fuel is 11.  The second component records whether a
file is left on disk at the destination path: the write stream is created
only after a 200 status, and a stream error runs `unlinkSync` before
rejecting. -/
def dlGo (fetch : String → HResp) : Nat → String → DlOut × Bool
  | 0, _ => (.tooManyRedirects, false)
  | Nat.succ fuel, url =>
    let r := fetch url
    if isRedirect r then dlGo fetch fuel (redirectTarget url (r.location.getD ""))
    else if r.status ≠ 200 then (.failed r.status, false)
    else if r.bodyOk then (.ok, true)
    else (.streamError, false)

/-- `downloadFileHttp` (line 155): `makeRequest(url)` with redirect
count 0, i.e. fuel 11. -/
def downloadFileHttp (fetch : String → HResp) (url : String) : DlOut × Bool :=
  dlGo fetch 11 url

/-- Status of the terminal (non-redirect) response of the redirect chain,
`none` when the redirect bound is exhausted first. -/
def terminalStatus (fetch : String → HResp) : Nat → String → Option Nat
  | 0, _ => none
  | Nat.succ fuel, url =>
    let r := fetch url
    if isRedirect r then
      terminalStatus fetch fuel (redirectTarget url (r.location.getD ""))
    else some r.status

/-! ## Frame sampling (`extractFrames`, lines 110-150; `extractAllFrames`,
lines 408-441) -/

/-- The sample-instant computation of lines 117-120 over `ℚ`:
`position = ((i + 1) / count) * duration`, the last instant pulled back to
`max(0, position - 0.5)`. -/
def framePositions (count : Nat) (duration : ℚ) : List ℚ :=
  (List.range count).map (fun i : Nat =>
    let position := (((i : ℚ) + 1) / (count : ℚ)) * duration
    if i = count - 1 then max 0 (position - 1/2) else position)

/-- Output path of the `i`-th (0-based) sampled frame (line 124). -/
def framePath (dir : String) (i : Nat) : String :=
  pathJoin dir ("frame_" ++ toString (i + 1) ++ ".jpg")

/-- The file-name filter of line 425:
`f.startsWith('frame_') && f.endsWith('.jpg')`. -/
def isFrameJpg (f : String) : Bool :=
  frameUnderscoreL.isPrefixOf f.toList &&
    ['.', 'j', 'p', 'g'].isSuffixOf f.toList

/-- Sort key of the all-frames sort: the parsed `frame_(\d+)` number (a
file name the regex cannot parse at all would crash the source at
`match(...)[1]`; the model totalizes its key to 0). -/
def frameKey (f : String) : Int := ((frameNum f).getD 0 : Int)

/-- The all-frames sort of lines 424-430: filter the directory listing,
then stable-sort by the embedded frame number, numerically. -/
def sortFrames (files : List String) : List String :=
  sortK frameKey (files.filter isFrameJpg)

/-! ## Download orchestrator (`downloadVideo`, lines 446-502)

The orchestrator's external effects (browser navigation and retrieval,
`ffprobe`, per-frame `ffmpeg` runs, the all-frames dump, the metadata
write) are embedded as an event trace; their outcomes, which depend on the
network and on subprocesses, are supplied by an environment record. -/

/-- The error taxonomy of the pipeline (each constructor is one `throw` /
`reject` message of the source). -/
inductive VErr
  | invalidUrl
  | noVideoFound
  | noDownloadableUrl
  | downloadFailed
  | tooManyRedirects
  | probeFailed
  | frameExtractionFailed
deriving DecidableEq

/-- External operations of one `downloadVideo` run, in invocation order. -/
inductive Ev
  | ffmpegCheck
  | navigate
  | probe
  | extractFrame (i : Nat)
  | extractAll
  | writeMetadata
deriving DecidableEq

/-- The `frameCount` option value: the string `'all'` or a number. -/
inductive FrameVal
  | all
  | num (n : Int)
deriving DecidableEq

/-- Environment of outcomes of the external collaborators for one run. -/
structure Env where
  videosDir : String
  dl : Except VErr Unit
  fileSize : Nat
  probe : Except VErr ℚ
  frameOk : Nat → Bool
  allOk : Bool
  listing : List String

/-- The `metadata` record of lines 485-495 (ISO timestamp and the derived
`file_size_mb` / `duration_seconds` strings carry no extra information and
are elided; `duration_seconds` is kept as the probed rational). -/
structure Meta where
  tweet_id : String
  username : String
  url : String
  file_size : Nat
  duration_seconds : ℚ
  frame_count : Nat
deriving DecidableEq

/-- The value resolved by `downloadVideo` (line 501). -/
structure DLResult where
  videoPath : String
  frames : List String
  metadata : Meta
deriving DecidableEq

/-- The per-frame extraction loop of lines 122-147, from frame index `i`
with `n` frames left: each attempt emits its `ffmpeg` invocation; a failed
attempt rejects the whole operation. -/
def frameLoop (frameOk : Nat → Bool) (dir : String) :
    Nat → Nat → List Ev × Except VErr (List String)
  | _, 0 => ([], .ok [])
  | i, Nat.succ n =>
    if frameOk i then
      let rest := frameLoop frameOk dir (i + 1) n
      (Ev.extractFrame i :: rest.1, rest.2.map (fun l => framePath dir i :: l))
    else ([Ev.extractFrame i], .error .frameExtractionFailed)

/-- `extractFrames` (lines 110-150) as invoked by the orchestrator: probe
the duration again, then run the extraction loop. -/
def extractFramesOp (env : Env) (dir : String) (count : Nat) :
    List Ev × Except VErr (List String) :=
  let rest := frameLoop env.frameOk dir 0 count
  (Ev.probe :: rest.1, rest.2)

/-- `extractAllFrames` (lines 408-441): a single whole-file dump, then the
filtered, numerically sorted listing mapped to joined paths. -/
def extractAllFramesOp (env : Env) (dir : String) :
    List Ev × Except VErr (List String) :=
  ([Ev.extractAll],
    if env.allOk then .ok ((sortFrames env.listing).map (pathJoin dir))
    else .error .frameExtractionFailed)

/-- The frame-specification test of line 448:
`frameCount === 'all' || (typeof frameCount === 'number' && frameCount > 0)`. -/
def shouldExtractFrames : FrameVal → Bool
  | .all => true
  | .num n => decide (0 < n)

/-- The frame branch of lines 478-483. -/
def sampleFrames (env : Env) (dir : String) :
    FrameVal → List Ev × Except VErr (List String)
  | .all => extractAllFramesOp env dir
  | .num n =>
    if 0 < n then extractFramesOp env dir n.toNat else ([], .ok [])

/-- `downloadVideo` (lines 446-502).  `options` is `none` when the caller
passes no `frameCount`, in which case the destructuring default
`frameCount = 5` applies.  Directory creation (`fs.mkdir`, idempotent) is
not an observable outcome and is elided from the trace. -/
def downloadVideo (env : Env) (url : String) (options : Option FrameVal) :
    List Ev × Except VErr DLResult :=
  let frameCount := options.getD (FrameVal.num 5)
  let evs0 : List Ev :=
    if shouldExtractFrames frameCount then [Ev.ffmpegCheck] else []
  match extractTweetId url with
  | none => (evs0, .error .invalidUrl)
  | some tid =>
    let uname := extractUsernameD url
    let videoDir := pathJoin env.videosDir (uname ++ "_" ++ tid)
    let videoPath := pathJoin videoDir "video.mp4"
    let evs1 := evs0 ++ [Ev.navigate]
    match env.dl with
    | .error e => (evs1, .error e)
    | .ok _ =>
      let evs2 := evs1 ++ [Ev.probe]
      match env.probe with
      | .error e => (evs2, .error e)
      | .ok duration =>
        let sf := sampleFrames env videoDir frameCount
        let evs3 := evs2 ++ sf.1
        match sf.2 with
        | .error e => (evs3, .error e)
        | .ok frames =>
          (evs3 ++ [Ev.writeMetadata],
            .ok
              { videoPath := videoPath
                frames := frames
                metadata :=
                  { tweet_id := tid
                    username := uname
                    url := url
                    file_size := env.fileSize
                    duration_seconds := duration
                    frame_count := frames.length } })

/-! ## Concrete fixtures used for evaluation of the model -/

/-- A captured response whose media id is one above the post id
`10^20` (first seen). -/
def respLate : VResp :=
  { url := "https://video.twimg.com/ext_tw_video/100000000000000000001/pu/vid/avc1/720x1280/x.mp4"
    contentType := "video/mp4"
    status := 200
    timestamp := 1 }

/-- A captured response whose media id is one below the post id
`10^20` (seen second). -/
def respEarly : VResp :=
  { url := "https://video.twimg.com/amplify_video/99999999999999999999/vid/avc1/720x1280/y.mp4"
    contentType := "video/mp4"
    status := 200
    timestamp := 2 }

/-- A qualifying segmented-playlist response at 640x360. -/
def respHlsFix : VResp :=
  { url := "https://video.twimg.com/ext_tw_video/123/pu/pl/640x360/a.m3u8"
    contentType := "application/x-mpegURL"
    status := 200
    timestamp := 1 }

/-- A progressive-file response at the strictly larger 1280x720. -/
def respMp4Fix : VResp :=
  { url := "https://video.twimg.com/ext_tw_video/123/pu/vid/1280x720/b.mp4"
    contentType := "video/mp4"
    status := 200
    timestamp := 2 }

/-- An environment in which every external operation succeeds. -/
def envAllOk : Env :=
  { videosDir := "/data/videos"
    dl := .ok ()
    fileSize := 1024
    probe := .ok 10
    frameOk := fun _ => true
    allOk := true
    listing := ["frame_10.jpg", "frame_9.jpg", "junk.txt", "frame_1.jpg"] }

/-- An environment in which the third frame extraction fails. -/
def envFrameFail : Env :=
  { videosDir := "/data/videos"
    dl := .ok ()
    fileSize := 1024
    probe := .ok 10
    frameOk := fun i => decide (i < 2)
    allOk := true
    listing := [] }

/-! ## Lemmas about the stable sort -/

theorem insertK_perm {α : Type} (key : α → Int) (x : α) (l : List α) :
    (insertK key x l).Perm (x :: l) := by
  induction l with
  | nil => simp [insertK]
  | cons y ys ih =>
    by_cases h : key x ≤ key y
    · simp [insertK, h]
    · simp only [insertK, if_neg h]
      exact (ih.cons y).trans (List.Perm.swap x y ys)

theorem sortK_perm {α : Type} (key : α → Int) (l : List α) :
    (sortK key l).Perm l := by
  induction l with
  | nil => simp [sortK]
  | cons x xs ih => exact (insertK_perm key x (sortK key xs)).trans (ih.cons x)

theorem sortK_eq_nil_iff {α : Type} (key : α → Int) (l : List α) :
    sortK key l = [] ↔ l = [] := by
  constructor
  · intro h
    have := sortK_perm key l
    rw [h] at this
    exact this.symm.eq_nil
  · intro h; subst h; rfl

theorem insertK_pairwise {α : Type} (key : α → Int) (x : α) (l : List α)
    (hl : l.Pairwise (fun a b => key a ≤ key b)) :
    (insertK key x l).Pairwise (fun a b => key a ≤ key b) := by
  induction l with
  | nil => simp [insertK]
  | cons y ys ih =>
    rcases List.pairwise_cons.mp hl with ⟨hy, hys⟩
    by_cases h : key x ≤ key y
    · simp only [insertK, if_pos h]
      refine List.pairwise_cons.mpr ⟨?_, hl⟩
      intro z hz
      rcases List.mem_cons.mp hz with rfl | hz
      · exact h
      · exact le_trans h (hy z hz)
    · simp only [insertK, if_neg h]
      refine List.pairwise_cons.mpr ⟨?_, ih hys⟩
      intro z hz
      have hz' : z ∈ x :: ys := (insertK_perm key x ys).mem_iff.mp hz
      rcases List.mem_cons.mp hz' with rfl | hz'
      · exact le_of_lt (lt_of_not_le h)
      · exact hy z hz'

theorem sortK_pairwise {α : Type} (key : α → Int) (l : List α) :
    (sortK key l).Pairwise (fun a b => key a ≤ key b) := by
  induction l with
  | nil => simp [sortK]
  | cons x xs ih => exact insertK_pairwise key x (sortK key xs) ih

theorem head_insertK {α : Type} (key : α → Int) (x : α) (l : List α) :
    (insertK key x l).head? =
      match l.head? with
      | none => some x
      | some y => if key x ≤ key y then some x else some y := by
  cases l with
  | nil => rfl
  | cons y ys =>
    by_cases h : key x ≤ key y <;> simp [insertK, h]

theorem head_sortK {α : Type} (key : α → Int) (l : List α) :
    (sortK key l).head? = firstMin key l := by
  induction l with
  | nil => rfl
  | cons x xs ih =>
    simp only [sortK, firstMin, head_insertK, ih]

theorem firstMin_eq_none_iff {α : Type} (key : α → Int) (l : List α) :
    firstMin key l = none ↔ l = [] := by
  cases l with
  | nil => simp [firstMin]
  | cons x xs =>
    simp only [firstMin]
    cases firstMin key xs with
    | none => simp
    | some y => by_cases h : key x ≤ key y <;> simp [h]

/-- Specification of `firstMin`: it returns the earliest element attaining
the minimal key. -/
theorem firstMin_spec {α : Type} (key : α → Int) (l : List α) (hl : l ≠ []) :
    ∃ x l₁ l₂, firstMin key l = some x ∧ l = l₁ ++ x :: l₂ ∧
      (∀ y ∈ l, key x ≤ key y) ∧ (∀ y ∈ l₁, key x < key y) := by
  induction l with
  | nil => exact absurd rfl hl
  | cons a t ih =>
    by_cases ht : t = []
    · subst ht
      exact ⟨a, [], [], rfl, rfl, by simp, by simp⟩
    · rcases ih ht with ⟨x, l₁, l₂, hfm, hsplit, hmin, hbefore⟩
      by_cases h : key a ≤ key x
      · refine ⟨a, [], t, ?_, rfl, ?_, by simp⟩
        · simp [firstMin, hfm, h]
        · intro y hy
          rcases List.mem_cons.mp hy with rfl | hy
          · exact le_refl _
          · exact le_trans h (hmin y hy)
      · refine ⟨x, a :: l₁, l₂, ?_, by simp [hsplit], ?_, ?_⟩
        · simp [firstMin, hfm, h]
        · intro y hy
          rcases List.mem_cons.mp hy with rfl | hy
          · exact le_of_lt (lt_of_not_le h)
          · exact hmin y hy
        · intro y hy
          rcases List.mem_cons.mp hy with rfl | hy
          · exact lt_of_not_le h
          · exact hbefore y hy

/-! ## Lemmas about the URL scanners -/

theorem toList_append (s t : String) : (s ++ t).toList = s.toList ++ t.toList := rfl

theorem mk_toList (s : String) : String.mk s.toList = s := by cases s; rfl

theorem takeWhile_append_all (p : Char → Bool) (l₁ l₂ : List Char)
    (h₁ : ∀ c ∈ l₁, p c = true) (h₂ : ∀ c, l₂.head? = some c → p c = false) :
    (l₁ ++ l₂).takeWhile p = l₁ := by
  induction l₁ with
  | nil =>
    cases l₂ with
    | nil => rfl
    | cons c cs => simp [List.takeWhile, h₂ c rfl]
  | cons a l ih =>
    have ha : p a = true := h₁ a (List.mem_cons_self a l)
    simp only [List.cons_append, List.takeWhile, ha]
    simp [ih (fun c hc => h₁ c (List.mem_cons_of_mem a hc))]

theorem isPrefixOf_append_self (l t : List Char) : l.isPrefixOf (l ++ t) = true := by
  induction l with
  | nil => simp [List.isPrefixOf]
  | cons c cs ih => simp [List.isPrefixOf, ih]

/-- If a pattern of shape `w ++ "/"` with slash-free `w` matches at the
start of `q ++ "/" ++ tail` with slash-free `q`, the pattern's slash must
align with the structural slash, so `q = w`. -/
theorem eq_of_slash_pattern_isPrefixOf (w : List Char) :
    ∀ (q tail : List Char), '/' ∉ w → '/' ∉ q →
      (w ++ ['/']).isPrefixOf (q ++ '/' :: tail) = true → q = w := by
  induction w with
  | nil =>
    intro q tail _ hq h
    cases q with
    | nil => rfl
    | cons c q' =>
      simp only [List.nil_append, List.cons_append, List.isPrefixOf,
        Bool.and_eq_true, beq_iff_eq] at h
      rcases h with ⟨hc, -⟩
      subst hc
      exact absurd (List.mem_cons_self _ _) hq
  | cons a w' ih =>
    intro q tail hw hq h
    cases q with
    | nil =>
      simp only [List.nil_append, List.cons_append, List.isPrefixOf,
        Bool.and_eq_true, beq_iff_eq] at h
      rcases h with ⟨hc, -⟩
      subst hc
      exact absurd (List.mem_cons_self _ _) hw
    | cons c q' =>
      simp only [List.cons_append, List.isPrefixOf, Bool.and_eq_true,
        beq_iff_eq] at h
      have hq' : q' = w' :=
        ih q' tail (fun hmem => hw (List.mem_cons_of_mem a hmem))
          (fun hmem => hq (List.mem_cons_of_mem c hmem)) h.2
      rw [hq', h.1]

theorem scanStatusId_cons_none (c : Char) (cs : List Char)
    (h : tryStatusIdAt (c :: cs) = none) : scanStatusId (c :: cs) = scanStatusId cs := by
  simp only [scanStatusId, h]

theorem scanStatusId_cons_some (c : Char) (cs ds : List Char)
    (h : tryStatusIdAt (c :: cs) = some ds) : scanStatusId (c :: cs) = some ds := by
  simp only [scanStatusId, h]

theorem scanStatusId_through_scheme (l : List Char) :
    scanStatusId (['h', 't', 't', 'p', 's', ':', '/', '/', 'x', '.', 'c',
      'o', 'm', '/'] ++ l) = scanStatusId l := by
  simp only [List.cons_append, List.nil_append]
  repeat rw [scanStatusId_cons_none _ _ (by simp [tryStatusIdAt, statusSlashL, List.isPrefixOf])]

theorem statusSlashL_eq : statusSlashL = ['s', 't', 'a', 't', 'u', 's'] ++ ['/'] := rfl

theorem tryStatusIdAt_none_inside_handle (c : Char) (hs tail : List Char)
    (hq : '/' ∉ c :: hs) :
    tryStatusIdAt (c :: (hs ++ '/' :: (statusSlashL ++ tail))) = none := by
  by_cases hpre :
      statusSlashL.isPrefixOf ((c :: hs) ++ '/' :: (statusSlashL ++ tail)) = true
  · have hq' : c :: hs = ['s', 't', 'a', 't', 'u', 's'] := by
      refine eq_of_slash_pattern_isPrefixOf ['s', 't', 'a', 't', 'u', 's']
        (c :: hs) (statusSlashL ++ tail) (by decide) hq ?_
      simpa [statusSlashL_eq] using hpre
    have hcs : c :: (hs ++ '/' :: (statusSlashL ++ tail)) =
        's' :: 't' :: 'a' :: 't' :: 'u' :: 's' :: '/' :: (statusSlashL ++ tail) := by
      have : (c :: hs) ++ '/' :: (statusSlashL ++ tail) =
          ['s', 't', 'a', 't', 'u', 's'] ++ '/' :: (statusSlashL ++ tail) := by rw [hq']
      simpa using this
    rw [hcs, tryStatusIdAt, if_pos (by simp [statusSlashL, List.isPrefixOf])]
    simp [statusSlashL, List.takeWhile, isDigitC]
  · rw [tryStatusIdAt, if_neg]
    simpa using hpre

theorem scanStatusId_skip_handle (tail : List Char) :
    ∀ hs : List Char, '/' ∉ hs →
      scanStatusId (hs ++ '/' :: (statusSlashL ++ tail)) =
        scanStatusId ('/' :: (statusSlashL ++ tail)) := by
  intro hs
  induction hs with
  | nil => intro _; rfl
  | cons c hs' ih =>
    intro hq
    have hstep := tryStatusIdAt_none_inside_handle c hs' tail hq
    calc scanStatusId ((c :: hs') ++ '/' :: (statusSlashL ++ tail))
        = scanStatusId (hs' ++ '/' :: (statusSlashL ++ tail)) := by
          simp only [List.cons_append]
          exact scanStatusId_cons_none _ _ hstep
      _ = scanStatusId ('/' :: (statusSlashL ++ tail)) :=
          ih (fun hmem => hq (List.mem_cons_of_mem c hmem))

theorem scanStatusId_at_separator (d r : List Char) (hd : d ≠ [])
    (hdig : ∀ c ∈ d, isDigitC c = true)
    (hr : ∀ c, r.head? = some c → isDigitC c = false) :
    scanStatusId ('/' :: (statusSlashL ++ (d ++ r))) = some d := by
  have hne : d.isEmpty = false := by
    cases d with
    | nil => exact absurd rfl hd
    | cons _ _ => rfl
  have htake : (d ++ r).takeWhile isDigitC = d :=
    takeWhile_append_all isDigitC d r hdig hr
  have hkey : tryStatusIdAt (statusSlashL ++ (d ++ r)) = some d := by
    rw [tryStatusIdAt, if_pos (isPrefixOf_append_self _ _)]
    rw [show (statusSlashL ++ (d ++ r)).drop 7 = d ++ r from
      List.drop_left' (by rfl)]
    simp [htake, hne]
  rw [scanStatusId_cons_none _ _ (by rw [tryStatusIdAt, if_neg (by simp [statusSlashL, List.isPrefixOf])])]
  have : statusSlashL ++ (d ++ r) =
      's' :: (['t', 'a', 't', 'u', 's', '/'] ++ (d ++ r)) := by simp [statusSlashL]
  rw [this] at hkey ⊢
  exact scanStatusId_cons_some _ _ _ hkey

theorem scanUsername_cons_none (c : Char) (cs : List Char)
    (h : tryUsernameAt (c :: cs) = none) :
    scanUsername (c :: cs) = scanUsername cs := by
  simp only [scanUsername, h]

theorem scanUsername_cons_some (c : Char) (cs run : List Char)
    (h : tryUsernameAt (c :: cs) = some run) :
    scanUsername (c :: cs) = some run := by
  simp only [scanUsername, h]

theorem scanUsername_through_https (l : List Char) :
    scanUsername (['h', 't', 't', 'p', 's', ':', '/', '/'] ++ l) =
      scanUsername l := by
  simp only [List.cons_append, List.nil_append]
  repeat rw [scanUsername_cons_none _ _
    (by simp [tryUsernameAt, xcomSlashL, List.isPrefixOf])]

theorem scanUsername_at_xcom (hl tail : List Char) (hne : hl ≠ [])
    (hslash : '/' ∉ hl) :
    scanUsername (['x', '.', 'c', 'o', 'm', '/'] ++
      (hl ++ '/' :: (statusSlashL ++ tail))) = some hl := by
  have hrunty : ∀ c ∈ hl, (fun c => decide (c ≠ '/')) c = true := by
    intro c hc
    simp only [decide_eq_true_eq]
    intro hcontra
    exact hslash (hcontra ▸ hc)
  have htake : (hl ++ '/' :: (statusSlashL ++ tail)).takeWhile
      (fun c => decide (c ≠ '/')) = hl :=
    takeWhile_append_all _ hl ('/' :: (statusSlashL ++ tail)) hrunty
      (by intro c hc; simp at hc; simp [← hc])
  have hempty : hl.isEmpty = false := by
    cases hl with
    | nil => exact absurd rfl hne
    | cons _ _ => rfl
  have hkey : tryUsernameAt (['x', '.', 'c', 'o', 'm', '/'] ++
      (hl ++ '/' :: (statusSlashL ++ tail))) = some hl := by
    rw [tryUsernameAt,
      if_pos (by
        have hself := isPrefixOf_append_self xcomSlashL
          (hl ++ '/' :: (statusSlashL ++ tail))
        rw [show xcomSlashL ++ (hl ++ '/' :: (statusSlashL ++ tail)) =
          ['x', '.', 'c', 'o', 'm', '/'] ++
            (hl ++ '/' :: (statusSlashL ++ tail)) from rfl] at hself
        exact hself)]
    rw [show (['x', '.', 'c', 'o', 'm', '/'] ++
      (hl ++ '/' :: (statusSlashL ++ tail))).drop 6 =
        hl ++ '/' :: (statusSlashL ++ tail) from List.drop_left' (by simp)]
    simp only [htake, hempty, Bool.false_eq_true, if_false]
    rw [show (hl ++ '/' :: (statusSlashL ++ tail)).drop hl.length =
      '/' :: (statusSlashL ++ tail) from List.drop_left' rfl]
    rw [if_pos (by simp [slashStatusL, statusSlashL, List.isPrefixOf])]
  have hshape : ['x', '.', 'c', 'o', 'm', '/'] ++
      (hl ++ '/' :: (statusSlashL ++ tail)) =
      'x' :: ('.' :: 'c' :: 'o' :: 'm' :: '/' ::
        (hl ++ '/' :: (statusSlashL ++ tail))) := by simp
  rw [hshape] at hkey ⊢
  exact scanUsername_cons_some _ _ _ hkey

/-- A nonempty string has a nonempty character list. -/
theorem toList_ne_nil {s : String} (hs : s ≠ "") : s.toList ≠ [] := by
  intro hnil
  apply hs
  calc s = String.mk s.toList := (mk_toList s).symm
    _ = "" := by rw [hnil]

/-- Parsing a well-formed post URL: the post id is the digit run after
`/status/` and the author handle is the path segment before `/status/`. -/
theorem extract_parse_valid (h d r : String)
    (hh : h ≠ "") (hslash : '/' ∉ h.toList)
    (hd : d ≠ "") (hdig : ∀ c ∈ d.toList, isDigitC c = true)
    (hr : ∀ c, r.toList.head? = some c → isDigitC c = false) :
    extractTweetId ("https://x.com/" ++ h ++ "/status/" ++ d ++ r) = some d ∧
    extractUsername ("https://x.com/" ++ h ++ "/status/" ++ d ++ r) = some h := by
  have hlist : ("https://x.com/" ++ h ++ "/status/" ++ d ++ r).toList =
      ['h', 't', 't', 'p', 's', ':', '/', '/'] ++
        (['x', '.', 'c', 'o', 'm', '/'] ++
          (h.toList ++ '/' :: (statusSlashL ++ (d.toList ++ r.toList)))) := by
    simp only [toList_append]
    simp [statusSlashL]
  constructor
  · rw [extractTweetId, hlist]
    rw [show ['h', 't', 't', 'p', 's', ':', '/', '/'] ++
        (['x', '.', 'c', 'o', 'm', '/'] ++
          (h.toList ++ '/' :: (statusSlashL ++ (d.toList ++ r.toList)))) =
        ['h', 't', 't', 'p', 's', ':', '/', '/', 'x', '.', 'c', 'o', 'm', '/'] ++
          (h.toList ++ '/' :: (statusSlashL ++ (d.toList ++ r.toList))) from by simp]
    rw [scanStatusId_through_scheme]
    rw [scanStatusId_skip_handle (d.toList ++ r.toList) h.toList hslash]
    rw [scanStatusId_at_separator d.toList r.toList (toList_ne_nil hd) hdig hr]
    simp [mk_toList]
  · rw [extractUsername, hlist]
    rw [scanUsername_through_https]
    rw [scanUsername_at_xcom h.toList (d.toList ++ r.toList)
      (toList_ne_nil hh) hslash]
    simp [mk_toList]

/-! ## Lemmas about the progressive retrieval -/

theorem dlGo_failed_iff (fetch : String → HResp) :
    ∀ (fuel : Nat) (url : String) (s : Nat),
      (dlGo fetch fuel url).1 = DlOut.failed s ↔
        (terminalStatus fetch fuel url = some s ∧ s ≠ 200) := by
  intro fuel
  induction fuel with
  | zero =>
    intro url s
    simp [dlGo, terminalStatus]
  | succ m ih =>
    intro url s
    by_cases hred : isRedirect (fetch url)
    · simp only [dlGo, terminalStatus, hred, if_true]
      exact ih _ s
    · simp only [dlGo, terminalStatus, hred, if_false, Bool.false_eq_true]
      by_cases h200 : (fetch url).status = 200
      · rw [if_neg (by simp [h200])]
        by_cases hbody : (fetch url).bodyOk
        · rw [if_pos hbody]
          simp [h200, eq_comm]
        · rw [if_neg hbody]
          simp [h200, eq_comm]
      · rw [if_pos h200]
        constructor
        · intro hfail
          simp only at hfail
          cases hfail
          exact ⟨rfl, h200⟩
        · rintro ⟨hsome, -⟩
          cases hsome
          rfl

theorem dlGo_file_iff (fetch : String → HResp) :
    ∀ (fuel : Nat) (url : String),
      (dlGo fetch fuel url).2 = true ↔ (dlGo fetch fuel url).1 = DlOut.ok := by
  intro fuel
  induction fuel with
  | zero => intro url; simp [dlGo]
  | succ m ih =>
    intro url
    by_cases hred : isRedirect (fetch url)
    · simp only [dlGo, hred, if_true]
      exact ih _
    · simp only [dlGo, hred, if_false, Bool.false_eq_true]
      by_cases h200 : (fetch url).status = 200
      · rw [if_neg (by simp [h200])]
        by_cases hbody : (fetch url).bodyOk
        · rw [if_pos hbody]
          simp
        · rw [if_neg hbody]
          simp
      · rw [if_pos h200]
        simp

/-! ## Lemmas about the frame loop and the orchestrator trace -/

theorem frameLoop_trace_frames (frameOk : Nat → Bool) (dir : String) :
    ∀ (n i : Nat) (e : Ev), e ∈ (frameLoop frameOk dir i n).1 →
      ∃ j, e = Ev.extractFrame j := by
  intro n
  induction n with
  | zero => intro i e he; simp [frameLoop] at he
  | succ m ih =>
    intro i e he
    by_cases hok : frameOk i
    · simp only [frameLoop, hok, if_true, List.mem_cons] at he
      rcases he with rfl | he
      · exact ⟨i, rfl⟩
      · exact ih (i + 1) e he
    · simp only [frameLoop, hok, if_false, Bool.false_eq_true,
        List.mem_singleton] at he
      exact ⟨i, he⟩

theorem frameLoop_ok_spec (frameOk : Nat → Bool) (dir : String) :
    ∀ (n i : Nat) (fr : List String),
      (frameLoop frameOk dir i n).2 = .ok fr →
      fr.length = n ∧ ∀ j (hj : j < fr.length),
        fr.get ⟨j, hj⟩ = framePath dir (i + j) := by
  intro n
  induction n with
  | zero =>
    intro i fr hfr
    simp only [frameLoop] at hfr
    cases hfr
    exact ⟨rfl, fun j hj => absurd hj (Nat.not_lt_zero j)⟩
  | succ m ih =>
    intro i fr hfr
    by_cases hok : frameOk i
    · simp only [frameLoop, hok, if_true] at hfr
      cases hrest : (frameLoop frameOk dir (i + 1) m).2 with
      | error e => rw [hrest] at hfr; simp [Except.map] at hfr
      | ok fr' =>
        rw [hrest] at hfr
        simp only [Except.map] at hfr
        cases hfr
        rcases ih (i + 1) fr' hrest with ⟨hlen, hget⟩
        refine ⟨by simp [hlen], ?_⟩
        intro j hj
        cases j with
        | zero => simp [framePath]
        | succ k =>
          have hk : k < fr'.length := by
            simp only [List.length_cons] at hj
            omega
          have := hget k hk
          simp only [List.get] at this ⊢
          rw [this]
          congr 1
          omega
    · simp only [frameLoop, hok, if_false, Bool.false_eq_true] at hfr
      cases hfr

theorem sampleFrames_trace_shape (env : Env) (dir : String) (fv : FrameVal)
    (e : Ev) (he : e ∈ (sampleFrames env dir fv).1) :
    e = Ev.probe ∨ e = Ev.extractAll ∨ ∃ j, e = Ev.extractFrame j := by
  cases fv with
  | all =>
    simp only [sampleFrames, extractAllFramesOp, List.mem_singleton] at he
    exact Or.inr (Or.inl he)
  | num n =>
    by_cases hn : 0 < n
    · simp only [sampleFrames, hn, if_true, extractFramesOp,
        List.mem_cons] at he
      rcases he with rfl | he
      · exact Or.inl rfl
      · exact Or.inr (Or.inr (frameLoop_trace_frames env.frameOk dir n.toNat 0 e he))
    · simp only [sampleFrames, hn, if_false] at he
      simp at he

/-! ## Claim theorems -/

/-- C3: for every positive count `N` and probed duration `D`, count-mode
sampling computes the instants `t_i = (i / N) * D` for `i = 1..N` in
increasing `i` order, except that the last instant is `max(0, t_N - 0.5)`;
in particular for `D = 65.00` and `N = 5` the instants are exactly
`[13.0, 26.0, 39.0, 52.0, 64.5]`. -/
theorem count_mode_instants (N : Nat) (D : ℚ) (hN : 0 < N) :
    (framePositions N D).length = N ∧
    (∀ i (hi : i < (framePositions N D).length),
      (framePositions N D).get ⟨i, hi⟩ =
        if i = N - 1 then max 0 (D - 1/2) else ((i : ℚ) + 1) / (N : ℚ) * D) ∧
    framePositions 5 65 = [13, 26, 39, 52, 129/2] := by
  have hN0 : (N : ℚ) ≠ 0 := Nat.cast_ne_zero.mpr hN.ne'
  refine ⟨by simp only [framePositions, List.length_map, List.length_range],
    ?_, by norm_num [framePositions, List.range_succ]⟩
  intro i hi
  simp only [framePositions, List.get_eq_getElem, List.getElem_map,
    List.getElem_range]
  by_cases hlast : i = N - 1
  · subst hlast
    have hcast : ((N - 1 : Nat) : ℚ) + 1 = (N : ℚ) := by
      have h1 : (N - 1) + 1 = N := Nat.succ_pred_eq_of_pos hN
      calc ((N - 1 : Nat) : ℚ) + 1 = (((N - 1) + 1 : Nat) : ℚ) := by push_cast; ring
        _ = (N : ℚ) := by rw [h1]
    simp only [if_pos rfl, hcast, div_self hN0, one_mul]
  · simp [hlast]

/-- C10: on success of count-mode extraction with count `N ≥ 1`, the
returned sequence has exactly `N` elements and its `i`-th (1-based)
element is the path `outputDir/frame_i.jpg`, in the loop's increasing
sample-instant order. -/
theorem count_mode_frame_paths (env : Env) (dir : String) (n : Int)
    (fr : List String) (hn : 1 ≤ n)
    (hok : (sampleFrames env dir (FrameVal.num n)).2 = .ok fr) :
    fr.length = n.toNat ∧
    ∀ j (hj : j < fr.length),
      fr.get ⟨j, hj⟩ = pathJoin dir ("frame_" ++ toString (j + 1) ++ ".jpg") := by
  have hpos : 0 < n := hn
  simp only [sampleFrames, hpos, if_true, extractFramesOp] at hok
  rcases frameLoop_ok_spec env.frameOk dir n.toNat 0 fr hok with ⟨hlen, hget⟩
  refine ⟨hlen, ?_⟩
  intro j hj
  have := hget j hj
  simpa [framePath] using this

/-- C10 witness: a concrete successful three-frame extraction. -/
theorem count_mode_frame_paths_witness :
    (1 : Int) ≤ 3 ∧
    (sampleFrames envAllOk "d" (FrameVal.num 3)).2 =
      .ok ["d/frame_1.jpg", "d/frame_2.jpg", "d/frame_3.jpg"] ∧
    ["d/frame_1.jpg", "d/frame_2.jpg", "d/frame_3.jpg"].length = (3 : Int).toNat :=
  ⟨by decide, by decide,
    (count_mode_frame_paths envAllOk "d" 3
      ["d/frame_1.jpg", "d/frame_2.jpg", "d/frame_3.jpg"]
      (by decide) (by decide)).1⟩

/-- C3 witness: the concrete fixture `D = 65`, `N = 5`. -/
theorem count_mode_instants_witness :
    framePositions 5 65 = [13, 26, 39, 52, 129/2] :=
  (count_mode_instants 5 65 (by decide)).2.2

/-- C6 (amended): progressive retrieval fails with `DownloadFailed`
exactly when the terminal (post-redirect) status differs from 200 — any
2xx other than 200 also fails — and no file is left at the destination on
any failure. -/
theorem download_failed_iff_non200 (fetch : String → HResp) (url : String) :
    (∀ s, (downloadFileHttp fetch url).1 = DlOut.failed s ↔
      (terminalStatus fetch 11 url = some s ∧ s ≠ 200)) ∧
    ((downloadFileHttp fetch url).2 = true ↔
      (downloadFileHttp fetch url).1 = DlOut.ok) :=
  ⟨fun s => dlGo_failed_iff fetch 11 url s, dlGo_file_iff fetch 11 url⟩

/-- C6 counterexample: a terminal 204 response is inside the 2xx range,
yet the retrieval rejects (the source tests `statusCode !== 200`), so the
claim "fails exactly when the terminal status is not in the 2xx range" is
false on the code. -/
theorem downloadFileHttp_204_counterexample :
    (downloadFileHttp (fun _ => ⟨204, none, true⟩)
      "https://video.twimg.com/v.mp4").1 = DlOut.failed 204 ∧
    200 ≤ 204 ∧ 204 < 300 := by
  refine ⟨?_, by decide, by decide⟩
  decide

/-- C6 witness: the amended equivalence applied at a terminal 404. -/
theorem download_failed_iff_non200_witness :
    (downloadFileHttp (fun _ => ⟨404, none, true⟩)
      "https://video.twimg.com/v.mp4").1 = DlOut.failed 404 :=
  ((download_failed_iff_non200 (fun _ => ⟨404, none, true⟩)
    "https://video.twimg.com/v.mp4").1 404).mpr ⟨by decide, by decide⟩

/-- C4: whenever the candidate pool contains at least one qualifying
segmented-playlist response, the selector chooses the segmented-playlist
strategy (the progressive branch is never reached), regardless of any
higher-resolution progressive file in the pool. -/
theorem hls_strategy_preferred (pool : List VResp)
    (hex : ∃ v ∈ pool, isHlsCand v = true) :
    ∃ w, w ∈ pool ∧ isHlsCand w = true ∧
      pickDownload pool = some (w.url, true) := by
  rcases hex with ⟨v, hv, hcand⟩
  have hmem : v ∈ pool.filter isHlsCand := List.mem_filter.mpr ⟨hv, hcand⟩
  have hne : pool.filter isHlsCand ≠ [] := fun hnil => by
    rw [hnil] at hmem; exact absurd hmem (List.not_mem_nil v)
  have hsne : sortK (fun v => -(hlsPixels v : Int)) (pool.filter isHlsCand) ≠ [] :=
    fun hnil => hne ((sortK_eq_nil_iff _ _).mp hnil)
  cases hsort : sortK (fun v => -(hlsPixels v : Int)) (pool.filter isHlsCand) with
  | nil => exact absurd hsort hsne
  | cons w t =>
    have hwmem : w ∈ pool.filter isHlsCand := by
      have : w ∈ sortK (fun v => -(hlsPixels v : Int)) (pool.filter isHlsCand) := by
        rw [hsort]; exact List.mem_cons_self w t
      exact (sortK_perm _ _).mem_iff.mp this
    rcases List.mem_filter.mp hwmem with ⟨hwpool, hwcand⟩
    refine ⟨w, hwpool, hwcand, ?_⟩
    simp only [pickDownload, hsort]

/-- C4 witness: a pool holding a 640x360 playlist and a strictly larger
1280x720 progressive file still selects the playlist strategy. -/
theorem hls_strategy_preferred_witness :
    (∃ w, w ∈ [respHlsFix, respMp4Fix] ∧ isHlsCand w = true ∧
      pickDownload [respHlsFix, respMp4Fix] = some (w.url, true)) ∧
    hlsPixels respHlsFix < mp4Pixels respMp4Fix :=
  ⟨hls_strategy_preferred [respHlsFix, respMp4Fix]
    ⟨respHlsFix, by decide, by decide⟩, by decide⟩

/-- C9: the group selection returns the first-seen group among those of
minimal absolute id difference: every group has a key at least as large,
and every group observed earlier has a strictly larger key — in
particular, on a tie the earlier group wins and the sign of the
difference plays no role. -/
theorem tie_selects_first_seen (P : Int) (gs : List (String × List VResp))
    (hne : gs ≠ []) :
    ∃ g l₁ l₂, selectGroup P gs = some g ∧ gs = l₁ ++ g :: l₂ ∧
      (∀ g' ∈ gs, absDiffKey P g ≤ absDiffKey P g') ∧
      (∀ g' ∈ l₁, absDiffKey P g < absDiffKey P g') := by
  rcases firstMin_spec (absDiffKey P) gs hne with ⟨g, l₁, l₂, hfm, hsplit, hmin, hbefore⟩
  exact ⟨g, l₁, l₂, by rw [selectGroup, head_sortK, hfm], hsplit, hmin, hbefore⟩

/-- C9 witness: two groups tied at distance one around the post id
`10^20`; the selector returns the first-seen one. -/
theorem tie_selects_first_seen_witness :
    ∃ g l₁ l₂,
      selectGroup 100000000000000000000
        [("100000000000000000001", [respLate]),
         ("99999999999999999999", [respEarly])] = some g ∧
      [("100000000000000000001", [respLate]),
       ("99999999999999999999", [respEarly])] = l₁ ++ g :: l₂ ∧
      (∀ g' ∈ [("100000000000000000001", [respLate]),
               ("99999999999999999999", [respEarly])],
        absDiffKey 100000000000000000000 g ≤ absDiffKey 100000000000000000000 g') ∧
      (∀ g' ∈ l₁,
        absDiffKey 100000000000000000000 g < absDiffKey 100000000000000000000 g') :=
  tie_selects_first_seen 100000000000000000000
    [("100000000000000000001", [respLate]), ("99999999999999999999", [respEarly])]
    (by decide)

/-- C1 (code-bug evidence): on the response log `[respLate, respEarly]`
with post id `10^20`, the two Media Identity Groups are tied at absolute
difference 1, and the resolver selects the first-seen group whose
difference is negative, although an equal-magnitude group with
non-negative difference exists — contradicting both the specification and
the comparator's own comment about preferring positive differences. -/
theorem tie_ignores_sign_eval :
    selectGroup 100000000000000000000 (buildGroups [respLate, respEarly]) =
      some ("100000000000000000001", [respLate]) ∧
    100000000000000000000 - (strToNat "100000000000000000001" : Int) < 0 ∧
    absDiffKey 100000000000000000000 ("100000000000000000001", [respLate]) =
      absDiffKey 100000000000000000000 ("99999999999999999999", [respEarly]) ∧
    0 ≤ 100000000000000000000 - (strToNat "99999999999999999999" : Int) ∧
    ("99999999999999999999", [respEarly]) ∈ buildGroups [respLate, respEarly] := by
  refine ⟨?_, by decide, by decide, by decide, ?_⟩ <;> decide

/-- C8: when the single whole-file dump succeeds and the filtered listing
has pairwise distinct embedded numbers (each parseable), all-mode sampling
returns the files sorted strictly ascending by embedded number under
numeric comparison, and the result is the same for every permutation of
the directory-listing order. -/
theorem all_mode_sorted (env : Env) (dir : String)
    (hok : env.allOk = true)
    (_hsome : ∀ f ∈ env.listing.filter isFrameJpg, (frameNum f).isSome = true)
    (hdist : (env.listing.filter isFrameJpg).Pairwise
      (fun a b => frameKey a ≠ frameKey b)) :
    (extractAllFramesOp env dir).2 =
      .ok ((sortFrames env.listing).map (pathJoin dir)) ∧
    (sortFrames env.listing).Pairwise (fun a b => frameKey a < frameKey b) ∧
    (∀ listing' : List String, listing'.Perm env.listing →
      sortFrames listing' = sortFrames env.listing) := by
  have hsym : ∀ {a b : String}, frameKey a ≠ frameKey b → frameKey b ≠ frameKey a :=
    fun hab => hab.symm
  have hsorted : ∀ files : List String,
      (files.filter isFrameJpg).Pairwise (fun a b => frameKey a ≠ frameKey b) →
      (sortFrames files).Pairwise (fun a b => frameKey a < frameKey b) := by
    intro files hd
    have hle : (sortFrames files).Pairwise (fun a b => frameKey a ≤ frameKey b) :=
      sortK_pairwise frameKey (files.filter isFrameJpg)
    have hne : (sortFrames files).Pairwise (fun a b => frameKey a ≠ frameKey b) :=
      ((sortK_perm frameKey (files.filter isFrameJpg)).pairwise_iff hsym).mpr hd
    exact (hle.and hne).imp (fun hab => lt_of_le_of_ne hab.1 hab.2)
  refine ⟨by simp [extractAllFramesOp, hok], hsorted env.listing hdist, ?_⟩
  intro listing' hperm
  have hfp : (listing'.filter isFrameJpg).Perm (env.listing.filter isFrameJpg) :=
    hperm.filter isFrameJpg
  have hd' : (listing'.filter isFrameJpg).Pairwise
      (fun a b => frameKey a ≠ frameKey b) :=
    (hfp.pairwise_iff hsym).mpr hdist
  have hp : (sortFrames listing').Perm (sortFrames env.listing) :=
    ((sortK_perm frameKey (listing'.filter isFrameJpg)).trans hfp).trans
      (sortK_perm frameKey (env.listing.filter isFrameJpg)).symm
  haveI : IsAntisymm String (fun a b => frameKey a < frameKey b) :=
    ⟨fun a b h1 h2 => absurd (h1.trans h2) (lt_irrefl _)⟩
  exact List.eq_of_perm_of_sorted hp (hsorted listing' hd') (hsorted env.listing hdist)

/-- C8 witness: the fixture listing, with `frame_10.jpg` sorting after
`frame_9.jpg`, and a permuted listing order yielding the same output. -/
theorem all_mode_sorted_witness :
    (extractAllFramesOp envAllOk "d").2 =
      .ok ["d/frame_1.jpg", "d/frame_9.jpg", "d/frame_10.jpg"] ∧
    sortFrames ["junk.txt", "frame_1.jpg", "frame_10.jpg", "frame_9.jpg"] =
      sortFrames envAllOk.listing := by
  have h := all_mode_sorted envAllOk "d" (by decide) (by decide) (by decide)
  refine ⟨h.1.trans (by decide), h.2.2 _ (by decide)⟩

/-- C5: the metadata record is the last external operation and is emitted
only on a fully successful run — on any failure (retrieval, probing, or
any frame extraction) no metadata is written — and on success the
metadata's `frame_count` equals the number of frame files produced. -/
theorem metadata_only_after_sampling (env : Env) (url : String)
    (options : Option FrameVal) (evs : List Ev) (r : Except VErr DLResult)
    (heq : downloadVideo env url options = (evs, r)) :
    ((∃ e, r = .error e) → Ev.writeMetadata ∉ evs) ∧
    (∀ res, r = .ok res →
      evs.getLast? = some Ev.writeMetadata ∧
      res.metadata.frame_count = res.frames.length) := by
  have hnm0 : ∀ b : Bool, Ev.writeMetadata ∉
      (if b = true then [Ev.ffmpegCheck] else ([] : List Ev)) := by
    intro b; cases b <;> simp
  unfold downloadVideo at heq
  split at heq
  · cases heq
    refine ⟨fun _ => hnm0 _, fun res hres => by cases hres⟩
  · split at heq
    · cases heq
      refine ⟨fun _ => ?_, fun res hres => by cases hres⟩
      simp only [List.mem_append]
      rintro (h | h)
      · exact hnm0 _ h
      · simp at h
    · split at heq
      · cases heq
        refine ⟨fun _ => ?_, fun res hres => by cases hres⟩
        simp only [List.mem_append]
        rintro ((h | h) | h)
        · exact hnm0 _ h
        · simp at h
        · simp at h
      · simp only at heq
        split at heq
        · cases heq
          refine ⟨fun _ => ?_, fun res hres => by cases hres⟩
          simp only [List.mem_append]
          rintro (((h | h) | h) | h)
          · exact hnm0 _ h
          · simp at h
          · simp at h
          · rcases sampleFrames_trace_shape _ _ _ _ h with h1 | h1 | ⟨j, h1⟩ <;> cases h1
        · cases heq
          refine ⟨fun he => ?_, fun res hres => ?_⟩
          · rcases he with ⟨e, he⟩; cases he
          · cases hres
            exact ⟨List.getLast?_concat _, rfl⟩

/-- C5 witness: a run whose third frame extraction fails writes no
metadata record. -/
theorem metadata_only_after_sampling_witness :
    Ev.writeMetadata ∉
      (downloadVideo envFrameFail "https://x.com/alice/status/123"
        (some (FrameVal.num 5))).1 := by
  have h := metadata_only_after_sampling envFrameFail
    "https://x.com/alice/status/123" (some (FrameVal.num 5)) _ _ rfl
  exact h.1 ⟨VErr.frameExtractionFailed, by decide⟩

/-- C2 (amended): a frame specification of 0 (or any non-positive count)
invokes no extraction operation and yields an empty frame sequence with
`frame_count = 0`; an *absent* specification is not disabled — it defaults
to a count of 5. -/
theorem zero_count_noop_and_absent_default :
    (∀ (env : Env) (url : String) (n : Int), n ≤ 0 →
      (∀ i, Ev.extractFrame i ∉ (downloadVideo env url (some (FrameVal.num n))).1) ∧
      Ev.extractAll ∉ (downloadVideo env url (some (FrameVal.num n))).1 ∧
      (∀ res, (downloadVideo env url (some (FrameVal.num n))).2 = .ok res →
        res.frames = [] ∧ res.metadata.frame_count = 0)) ∧
    (∀ (env : Env) (url : String),
      downloadVideo env url none = downloadVideo env url (some (FrameVal.num 5))) := by
  constructor
  · intro env url n hn
    have hse : shouldExtractFrames (FrameVal.num n) = false := by
      simp only [shouldExtractFrames]
      exact decide_eq_false (by omega)
    have hsf : ∀ dir, sampleFrames env dir (FrameVal.num n) = ([], .ok []) := by
      intro dir
      simp [sampleFrames, show ¬ (0 : Int) < n from by omega]
    have hkey : ∀ evs res, downloadVideo env url (some (FrameVal.num n)) = (evs, res) →
        (∀ e ∈ evs, e = Ev.navigate ∨ e = Ev.probe ∨ e = Ev.writeMetadata) ∧
        (∀ dres, res = .ok dres → dres.frames = [] ∧ dres.metadata.frame_count = 0) := by
      intro evs res heq
      unfold downloadVideo at heq
      simp only [Option.getD_some, hse, Bool.false_eq_true, if_false,
        List.nil_append, hsf, List.append_nil] at heq
      split at heq
      · cases heq
        exact ⟨by simp, fun dres hres => by cases hres⟩
      · split at heq
        · cases heq
          refine ⟨?_, fun dres hres => by cases hres⟩
          intro e he
          simp at he
          simp [he]
        · split at heq
          · cases heq
            refine ⟨?_, fun dres hres => by cases hres⟩
            intro e he
            simp at he
            rcases he with he | he <;> simp [he]
          · cases heq
            refine ⟨?_, ?_⟩
            · intro e he
              simp at he
              rcases he with he | he | he <;> simp [he]
            · intro dres hres
              cases hres
              exact ⟨rfl, rfl⟩
    refine ⟨?_, ?_, ?_⟩
    · intro i hmem
      rcases (hkey _ _ rfl).1 _ hmem with h | h | h <;> cases h
    · intro hmem
      rcases (hkey _ _ rfl).1 _ hmem with h | h | h <;> cases h
    · exact (hkey _ _ rfl).2
  · intro env url
    rfl

/-- C2 counterexample: with an absent frame specification the
destructuring default `frameCount = 5` applies, so five frames are
extracted and `frame_count = 5`, contradicting the claim that an absent
specification is a no-op with an empty sequence. -/
theorem absent_spec_counterexample :
    (downloadVideo envAllOk "https://x.com/alice/status/123" none).2.map
        (fun res => res.metadata.frame_count) = Except.ok 5 ∧
    (downloadVideo envAllOk "https://x.com/alice/status/123" none).2.map
        (fun res => res.frames.length) = Except.ok 5 ∧
    Ev.extractFrame 0 ∈ (downloadVideo envAllOk "https://x.com/alice/status/123" none).1 := by
  refine ⟨?_, ?_, ?_⟩ <;> decide

/-- C2 witness: a concrete zero-count run invokes no whole-file dump. -/
theorem zero_count_witness :
    Ev.extractAll ∉
      (downloadVideo envAllOk "https://x.com/alice/status/123"
        (some (FrameVal.num 0))).1 :=
  ((zero_count_noop_and_absent_default).1 envAllOk
    "https://x.com/alice/status/123" 0 (by decide)).2.1

/-- C7: for every well-formed post URL the parser extracts the digits-only
post id after `/status/` and the handle segment before `/status/`; and
for every URL with no extractable post id, the pipeline fails with
`InvalidUrl` before any navigation, retrieval, probing or extraction —
the only operation that may precede the failure is the ffmpeg
availability check. -/
theorem parse_and_invalid_url_fails_fast :
    (∀ (h d r : String), h ≠ "" → '/' ∉ h.toList → d ≠ "" →
      (∀ c ∈ d.toList, isDigitC c = true) →
      (∀ c, r.toList.head? = some c → isDigitC c = false) →
      extractTweetId ("https://x.com/" ++ h ++ "/status/" ++ d ++ r) = some d ∧
      extractUsername ("https://x.com/" ++ h ++ "/status/" ++ d ++ r) = some h) ∧
    (∀ (env : Env) (url : String) (options : Option FrameVal),
      extractTweetId url = none →
      (downloadVideo env url options).2 = Except.error VErr.invalidUrl ∧
      ∀ e ∈ (downloadVideo env url options).1, e = Ev.ffmpegCheck) := by
  constructor
  · intro h d r hh hsl hd hdig hr
    exact extract_parse_valid h d r hh hsl hd hdig hr
  · intro env url options hnone
    have hdv : downloadVideo env url options =
        ((if shouldExtractFrames (options.getD (FrameVal.num 5)) = true
          then [Ev.ffmpegCheck] else []), Except.error VErr.invalidUrl) := by
      unfold downloadVideo
      rw [hnone]
    constructor
    · rw [hdv]
    · intro e he
      rw [hdv] at he
      by_cases hb : shouldExtractFrames (options.getD (FrameVal.num 5)) = true
      · rw [if_pos hb] at he
        simpa using he
      · rw [if_neg hb] at he
        simp at he

/-- C7 witness: a concrete valid URL parses to its id and handle, and a
concrete invalid URL fails with `InvalidUrl`. -/
theorem parse_and_invalid_url_witness :
    extractTweetId "https://x.com/alice/status/12345" = some "12345" ∧
    extractUsername "https://x.com/alice/status/12345" = some "alice" ∧
    (downloadVideo envAllOk "https://nope" none).2 = Except.error VErr.invalidUrl := by
  have hp := (parse_and_invalid_url_fails_fast).1 "alice" "12345" ""
    (by decide) (by decide) (by decide) (by decide)
    (by intro c hc; simp at hc)
  have hq := (parse_and_invalid_url_fails_fast).2 envAllOk "https://nope" none (by decide)
  have hurl : "https://x.com/" ++ "alice" ++ "/status/" ++ "12345" ++ "" =
      "https://x.com/alice/status/12345" := by decide
  rw [hurl] at hp
  exact ⟨hp.1, hp.2, hq.1⟩
end VideoDL
